import Mathlib

/-!
Verification of the interview flow engine of the `data-gather` repository.

The data model and operations below are shallow embeddings of the TypeScript
sources.  JavaScript strings are modelled as Lean `String`s (or `List Char`
where character-level splitting semantics matter), JavaScript `Map`s and plain
objects used as dictionaries are modelled as association lists in insertion
order, `undefined`-able values as `Option`, and the wall clock as an explicit
environment parameter.  Functions of the repository that are referenced by the
provided sources but whose own definition file was not provided (the
`ConfigurableScript` flow resolver and the `@dataclinic/interview` engine) are
modelled from the specification and marked as such in their doc comments.
-/

namespace DataGather

/-- Association-list lookup, modelling `Map.get` / object property access on a
dictionary keyed by strings: returns the value of the first matching key. -/
def alookup {α : Type} : List (String × α) → String → Option α
  | [], _ => none
  | (k, v) :: rest, key => if k = key then some v else alookup rest key

/-- Association-list insertion, modelling JavaScript `Map.set`: replaces the
value in place if the key is present, otherwise appends at the end. -/
def aset {α : Type} : List (String × α) → String → α → List (String × α)
  | [], k, v => [(k, v)]
  | (k', v') :: rest, k, v =>
      if k' = k then (k, v) :: rest else (k', v') :: aset rest k v

/-- Response types of an entry (`InterviewScreenEntry.ResponseType`).  The
provided sources discriminate only on the record-backed `airtable` type; the
other tags stand for the simple response types (text, number, single-select). -/
inductive ResponseType
  | text
  | number
  | singleSelect
  | airtable
deriving DecidableEq, Repr

/-- `InterviewScreenEntry.AirtableOptions`: the `responseTypeOptions` payload
of a record-backed entry (`selectedBase` / `selectedTable` / `selectedFields`). -/
structure AirtableOptions where
  selectedBase : String
  selectedTable : String
  selectedFields : List String
deriving DecidableEq, Repr

/-- A single question (`InterviewScreenEntry.T`): storage id, the stable
`responseKey` used to index accumulated answers, the response type and its
variant options payload. -/
structure Entry where
  id : String
  responseKey : String
  responseType : ResponseType
  responseTypeOptions : AirtableOptions
deriving DecidableEq, Repr

/-- A recorded answer value.  Simple response types record a string; a
record-backed (Airtable) entry records a structured answer whose sub-fields
are selected by a response field key. -/
inductive ResponseValue
  | str (s : String)
  | airtableRecord (recordFields : List (String × String))
deriving DecidableEq, Repr

/-- One slot of `ResponseData`: the entry that was answered together with the
recorded response value. -/
structure ResponseDataEntry where
  entry : Entry
  response : ResponseValue
deriving DecidableEq, Repr

/-- `ResponseData`: mapping from `responseKey` to `{entry, response}`, in
insertion order. -/
abbrev ResponseData := List (String × ResponseDataEntry)

/-- Flow screen (`InterviewScreen.WithChildrenT`): id, the starting-state
flag and order used for initial-screen selection, and the screen's entries. -/
structure Screen where
  id : String
  isInStartingState : Bool
  startingStateOrder : Option Int
  entries : List Entry
deriving DecidableEq, Repr

/-- First entry with the given id in a list of entries, in list order
(the loop body of `InterviewScreenEntry.getEntryById`). -/
def findEntryInList (entryId : String) : List Entry → Option Entry
  | [] => none
  | e :: rest => if e.id = entryId then some e else findEntryInList entryId rest

/-- `InterviewScreenEntry.getEntryById` (src/models/InterviewScreenEntry.ts):
returns `null` when the entry list is `null`, otherwise scans the list in
order and returns the first entry whose id matches, or `null` if none does.
The `Option (List Entry)` argument models the `entries: ... | null` parameter
and the `Option Entry` result models the `... | null` return type; the
function is total by construction, mirroring a function that never throws. -/
def getEntryById (entryId : String) (entries : Option (List Entry)) : Option Entry :=
  match entries with
  | none => none
  | some l => findEntryInList entryId l

end DataGather

namespace DataGather

/-! ### Serialization of `allowedLanguages` (src/models/Interview.ts)

`serialize` stores `allowedLanguages.join(LANGUAGE_DELIMITER)` and
`deserialize` recovers `allowedLanguages.split(LANGUAGE_DELIMITER)`, with
`LANGUAGE_DELIMITER = ';'`.  JavaScript strings are modelled at character
level here because `String.prototype.split` has character-exact semantics:
in particular `''.split(';')` is `['']`, not `[]`. -/

/-- The delimiter used to pack `allowedLanguages` into one string
(`LANGUAGE_DELIMITER` in src/models/Interview.ts). -/
def LANGUAGE_DELIMITER : Char := ';'

/-- JavaScript `String.prototype.split` with a one-character separator:
splits at every occurrence of the separator, keeping empty segments, and
yields `[""]` on the empty string. -/
def jsSplit (sep : Char) : List Char → List (List Char)
  | [] => [[]]
  | c :: cs =>
      if c = sep then [] :: jsSplit sep cs
      else (c :: (jsSplit sep cs).headD []) :: (jsSplit sep cs).tail

/-- JavaScript `Array.prototype.join` with a one-character separator:
concatenates the pieces with the separator in between, yielding the empty
string on the empty array. -/
def jsJoin (sep : Char) : List (List Char) → List Char
  | [] => []
  | x :: xs => x ++ xs.flatMap (fun y => sep :: y)

/-- The interview metadata fields affected by the `allowedLanguages`
round trip (src/models/Interview.ts); the remaining metadata fields are
copied verbatim by `serialize`/`deserialize` and are represented by `name`. -/
structure InterviewMeta where
  allowedLanguages : List (List Char)
  name : List Char
deriving DecidableEq, Repr

/-- The serialized interview metadata: `allowedLanguages` packed into a
single delimiter-joined string. -/
structure SerializedInterviewMeta where
  allowedLanguages : List Char
  name : List Char
deriving DecidableEq, Repr

/-- `Interview.serialize` restricted to the metadata fields:
`allowedLanguages: interview.allowedLanguages.join(LANGUAGE_DELIMITER)`. -/
def serializeInterviewMeta (i : InterviewMeta) : SerializedInterviewMeta :=
  { allowedLanguages := jsJoin LANGUAGE_DELIMITER i.allowedLanguages
    name := i.name }

/-- `Interview.deserialize` restricted to the metadata fields:
`allowedLanguages: rawObj.allowedLanguages.split(LANGUAGE_DELIMITER)`. -/
def deserializeInterviewMeta (s : SerializedInterviewMeta) : InterviewMeta :=
  { allowedLanguages := jsSplit LANGUAGE_DELIMITER s.allowedLanguages
    name := s.name }

/-! ### Submission resolution (`onInterviewComplete`, InterviewRunnerView) -/

/-- `SubmissionAction.SpecialValueType`.  The `switch` in
`getSpecialValueForSubmission` handles `NOW_DATE` and funnels everything else
into `assertUnreachable`, whose `never` parameter forces the enum to have
exactly this one member at compile time. -/
inductive SpecialValueType
  | NOW_DATE
deriving DecidableEq, Repr

/-- The runtime environment of a submission resolution: `nowISO` is the
ISO-8601 rendering of the current instant, i.e. the value
`new Date().toISOString()` produces at resolution time. -/
structure Env where
  nowISO : String
deriving DecidableEq, Repr

/-- `getSpecialValueForSubmission` (InterviewRunnerView): `NOW_DATE` resolves
to the current instant as an ISO-8601 string; the `default` branch is the
compiler-enforced `assertUnreachable` and has no counterpart here because the
enum is exhausted. -/
def getSpecialValueForSubmission (env : Env) (svt : SpecialValueType) : String :=
  match svt with
  | .NOW_DATE => env.nowISO

/-- `SubmissionAction.EntryResponseLookupConfig`: either `{entryId,
responseFieldKey}` (pull a sub-field of another entry's answer) or
`{specialValueType}` (a computed value). -/
structure EntryResponseLookupConfig where
  entryId : Option String
  responseFieldKey : Option String
  specialValueType : Option SpecialValueType
deriving DecidableEq, Repr

/-- `SubmissionAction` config variants: `EDIT_ROW` carries the source entry id
and the primary key field; `INSERT_ROW` carries the explicit base/table
targets. -/
inductive ActionConfig
  | editRow (entryId : String) (primaryKeyField : String)
  | insertRow (baseTarget : String) (tableTarget : String)
deriving DecidableEq, Repr

/-- A submission action: its config plus the `fieldMappings` map from
external field id to lookup config (a JavaScript `Map`, modelled in insertion
order). -/
structure SubmissionActionT where
  config : ActionConfig
  fieldMappings : List (String × EntryResponseLookupConfig)
deriving DecidableEq, Repr

/-- The interview snapshot the runner works with: its screens and its
submission actions. -/
structure Interview where
  screens : List Screen
  submissionActions : List SubmissionActionT
deriving DecidableEq, Repr

/-- Modelled from the spec: `ConfigurableScript.getResponseValue`
(src/script/ConfigurableScript.ts) is referenced by the provided sources but
its defining file is not among them.  Per the spec it looks up the entry's
recorded answer via the accumulator and extracts `responseFieldKey` from it
(answers of composite response types are structured and `responseFieldKey`
selects a sub-field; for simple response types the identity projection); an
unanswered entry yields no value. -/
def getResponseValue (rd : ResponseData) (responseKey : String)
    (responseFieldKey : Option String) : Option String :=
  match alookup rd responseKey with
  | none => none
  | some rde =>
      match rde.response, responseFieldKey with
      | .str s, _ => some s
      | .airtableRecord recordFields, some fk => alookup recordFields fk
      | .airtableRecord _, none => none

/-- The `allEntries` map of `onInterviewComplete`: reduce over the response
data, `map.set(entry.id, entry)` for every answered entry. -/
def buildAllEntries (rd : ResponseData) : List (String × Entry) :=
  rd.foldl (fun m kv => aset m kv.2.entry.id kv.2.entry) []

/-- The `else if (specialValueType)` arm of the field-mapping loop: a set
special value type resolves through `getSpecialValueForSubmission`, otherwise
the value stays the initial `''`. -/
def resolveSpecial (env : Env) (cfg : EntryResponseLookupConfig) : String :=
  match cfg.specialValueType with
  | some svt => getSpecialValueForSubmission env svt
  | none => ""

/-- The body of the `fieldMappings.forEach` loop of `onInterviewComplete`:
`if (entryId)` (JavaScript truthiness, so the empty string falls through to
the special-value branch) look the entry up in `allEntries` and pull
`getResponseValue(responseData, entry.responseKey, responseFieldKey) ?? ''`;
otherwise `else if (specialValueType)` compute the special value; the value
defaults to `''`. -/
def resolveFieldValue (env : Env) (allEntries : List (String × Entry))
    (rd : ResponseData) (cfg : EntryResponseLookupConfig) : String :=
  match cfg.entryId with
  | some eid =>
      if eid = "" then resolveSpecial env cfg
      else
        match alookup allEntries eid with
        | some entry =>
            (getResponseValue rd entry.responseKey cfg.responseFieldKey).getD ""
        | none => ""
  | none => resolveSpecial env cfg

/-- The `fields` object accumulated by the `fieldMappings.forEach` loop:
every mapping is resolved and, per the `if (responseValue !== '')` guard,
only non-empty values are written into the payload (`// ignore empty
values`). -/
def resolveFields (env : Env) (allEntries : List (String × Entry))
    (rd : ResponseData) (mappings : List (String × EntryResponseLookupConfig)) :
    List (String × String) :=
  mappings.filterMap fun p =>
    let v := resolveFieldValue env allEntries rd p.2
    if v = "" then none else some (p.1, v)

/-- A call dispatched to the external record sink:
`updateAirtableRecord(baseId, tableId, recordId, fields)` or
`createAirtableRecord(baseId, tableId, fields)`. -/
inductive SinkCall
  | updateRecord (baseId tableId recordId : String) (fields : List (String × String))
  | createRecord (baseId tableId : String) (fields : List (String × String))
deriving DecidableEq, Repr

/-- The fields payload carried by a sink call. -/
def SinkCall.fields : SinkCall → List (String × String)
  | .updateRecord _ _ _ fs => fs
  | .createRecord _ _ fs => fs

/-- One iteration of the `submissionActions.forEach` loop of
`onInterviewComplete`: the list of sink calls (zero or one) the action
dispatches.
* `EDIT_ROW`: look the target entry up in `allEntries` (absent when the
  entry was never answered); require the record-backed response type; resolve
  the record id from the entry's answer via `primaryKeyField`; the
  `if (airtableRecordId)` truthiness guard skips both an absent and an empty
  record id; otherwise dispatch `updateRecord` with the resolved fields.
* `INSERT_ROW`: always dispatch `createRecord` against the explicit
  base/table targets with the resolved fields. -/
def resolveSubmissionAction (env : Env) (allEntries : List (String × Entry))
    (rd : ResponseData) (action : SubmissionActionT) : List SinkCall :=
  match action.config with
  | .editRow entryId primaryKeyField =>
      match alookup allEntries entryId with
      | some entryTarget =>
          if entryTarget.responseType = ResponseType.airtable then
            match getResponseValue rd entryTarget.responseKey (some primaryKeyField) with
            | some recordId =>
                if recordId = "" then []
                else
                  [SinkCall.updateRecord
                    entryTarget.responseTypeOptions.selectedBase
                    entryTarget.responseTypeOptions.selectedTable
                    recordId
                    (resolveFields env allEntries rd action.fieldMappings)]
            | none => []
          else []
      | none => []
  | .insertRow baseTarget tableTarget =>
      [SinkCall.createRecord baseTarget tableTarget
        (resolveFields env allEntries rd action.fieldMappings)]

/-- `onInterviewComplete` (InterviewRunnerView): iterate over the interview's
submission actions in order, resolving and dispatching each one
independently.  `failures` is the oracle saying which sink calls the external
service rejects; the second component collects, per dispatched call, the
failures reported back through the `onError` callback (the HTTP error toast).
The external service never blocks the loop: each `mutate` is fire-and-forget,
so the dispatch list is produced unconditionally and errors are only
collected for reporting. -/
def onInterviewComplete (env : Env) (failures : SinkCall → Bool)
    (interview : Interview) (rd : ResponseData) : List SinkCall × List SinkCall :=
  let allEntries := buildAllEntries rd
  interview.submissionActions.foldl
    (fun acc action =>
      let calls := resolveSubmissionAction env allEntries rd action
      (acc.1 ++ calls, acc.2 ++ calls.filter failures))
    ([], [])

/-! ### Flow resolution (ConfigurableScript / engine)

The `ConfigurableScript` class (src/script/ConfigurableScript.ts) and the
`@dataclinic/interview` engine are referenced by the provided sources but
their defining files are not among them; the definitions in this section are
modelled from the specification and say so in their doc comments. -/

/-- Comparison operators a condition may use (spec: "equality/contains/etc.,
left abstract as a capability the evaluator must support per responseType"). -/
inductive ConditionalOperator
  | equals
  | notEquals
  | contains
deriving DecidableEq, Repr

/-- A flow transition target: "goto screen X" or "end interview". -/
inductive FlowTarget
  | screen (screenId : String)
  | terminal
deriving DecidableEq, Repr

/-- A condition: a comparison of one entry's recorded response value against
a configured value. -/
structure Condition where
  entryId : String
  operator : ConditionalOperator
  value : String
deriving DecidableEq, Repr

/-- A `ConditionalAction`: a branching rule attached to a screen, evaluated
in source order, whose target is taken when its condition matches. -/
structure ConditionalAction where
  screenId : String
  condition : Condition
  target : FlowTarget
deriving DecidableEq, Repr

/-- Modelled from the spec: the per-responseType comparison capability of the
ConditionEvaluator inside `ConfigurableScript` (not among the provided
sources).  "Comparison semantics are per responseType (string equality for
text, set-membership for multi-select, etc.) and must be total (every
responseType/condition pairing produces a defined boolean, never an error)";
totality holds by construction. -/
def evalComparison (op : ConditionalOperator) (answer : ResponseValue)
    (condValue : String) : Bool :=
  match op, answer with
  | .equals, .str s => s = condValue
  | .equals, .airtableRecord _ => false
  | .notEquals, .str s => s ≠ condValue
  | .notEquals, .airtableRecord _ => true
  | .contains, .str s => (s.splitOn ",").contains condValue
  | .contains, .airtableRecord recordFields =>
      (recordFields.map Prod.snd).contains condValue

/-- First entry with the given id across the supplied screens' entries. -/
def findEntryInScreens (screens : List Screen) (entryId : String) : Option Entry :=
  findEntryInList entryId (screens.flatMap Screen.entries)

/-- Modelled from the spec: `ConditionEvaluator.matches` inside
`ConfigurableScript` (not among the provided sources).  "Looks up the
referenced entry's recorded answer; if unanswered, treated as non-match
(condition cannot be satisfied by an absent answer)". -/
def conditionMatches (screens : List Screen) (rd : ResponseData)
    (cond : Condition) : Bool :=
  match findEntryInScreens screens cond.entryId with
  | none => false
  | some entry =>
      match alookup rd entry.responseKey with
      | none => false
      | some rde => evalComparison cond.operator rde.response cond.value

/-- The screen that follows the screen with the given id in the supplied
sequence, if any. -/
def nextInSequence : List Screen → String → Option Screen
  | [], _ => none
  | s :: rest, screenId =>
      if s.id = screenId then rest.head? else nextInSequence rest screenId

/-- The conditional actions attached to a screen, in source (= priority)
order. -/
def screenActions (condActions : List ConditionalAction) (screenId : String) :
    List ConditionalAction :=
  condActions.filter fun a => a.screenId = screenId

/-- Modelled from the spec: `FlowResolver.next` inside `ConfigurableScript`
(not among the provided sources).  "Evaluate S's ConditionalActions in
priority order against the accumulator; first match's target determines the
transition.  If none match, fall back to the default: the next screen in the
screens' natural sequence after S; if S is last in sequence, transition to
TERMINAL." -/
def nextState (screens : List Screen) (condActions : List ConditionalAction)
    (current : Screen) (rd : ResponseData) : FlowTarget :=
  match (screenActions condActions current.id).find?
      (fun a => conditionMatches screens rd a.condition) with
  | some a => a.target
  | none =>
      match nextInSequence screens current.id with
      | some t => FlowTarget.screen t.id
      | none => FlowTarget.terminal

/-- `Interview.getStartingScreens` (src/models/Interview.ts): keep the screens
with `isInStartingState` and a defined `startingStateOrder`, then stable-sort
them by `(scr2.startingStateOrder ?? 0) - (scr1.startingStateOrder ?? 0)`,
i.e. descending order (JavaScript `Array.prototype.sort` is stable). -/
def getStartingScreens (interview : Interview) : List Screen :=
  (interview.screens.filter fun s =>
      s.isInStartingState && s.startingStateOrder.isSome).mergeSort
    fun s1 s2 => s2.startingStateOrder.getD 0 ≤ s1.startingStateOrder.getD 0

/-- Fatal configuration errors at engine construction time. -/
inductive ConfigError
  | danglingEntryReference (entryId : String)
  | noStartingScreen
deriving DecidableEq, Repr

/-- Modelled from the spec: the INITIAL transition of the FlowResolver inside
`ConfigurableScript` (not among the provided sources).  "Among screens with
`isInStartingState = true`, pick the one with the highest
`startingStateOrder`; if none qualifies, fail with a configuration error (no
valid entry point)" — the qualifying screens, sorted highest-order first, are
exactly `getStartingScreens`. -/
def selectInitialScreen (interview : Interview) : Except ConfigError Screen :=
  match getStartingScreens interview with
  | [] => Except.error ConfigError.noStartingScreen
  | s :: _ => Except.ok s

/-- Every entry id referenced by the supplied conditional actions and
submission actions: condition subjects, `EDIT_ROW` targets, and the set
`entryId`s of every field mapping. -/
def referencedEntryIds (condActions : List ConditionalAction)
    (subActions : List SubmissionActionT) : List String :=
  condActions.map (fun a => a.condition.entryId) ++
    subActions.flatMap fun a =>
      (match a.config with
       | .editRow eid _ => [eid]
       | .insertRow _ _ => []) ++
        a.fieldMappings.filterMap fun p => p.2.entryId

/-- Whether an entry with the given id exists in the supplied screen set. -/
def entryExists (screens : List Screen) (entryId : String) : Bool :=
  screens.any fun s => s.entries.any fun e => e.id = entryId

/-- Modelled from the spec: the construction-time validation of entry
references by `ConfigurableScript` / the engine (not among the provided
sources).  "Every `entryId` referenced by a ConditionalAction or
SubmissionAction must reference an Entry that exists in the supplied screen
set; the engine fails fast (construction-time error) if not." -/
def validateEntryReferences (screens : List Screen)
    (condActions : List ConditionalAction)
    (subActions : List SubmissionActionT) : Except ConfigError Unit :=
  match (referencedEntryIds condActions subActions).find?
      (fun eid => !entryExists screens eid) with
  | some eid => Except.error (ConfigError.danglingEntryReference eid)
  | none => Except.ok ()

/-- Modelled from the spec: engine construction (`new ConfigurableScript` +
`new Engine`, not among the provided sources).  Construction validates every
entry reference and then selects the initial screen; an `Except.error` result
means the flow never starts and no screen is ever presented. -/
def constructEngine (interview : Interview)
    (condActions : List ConditionalAction) : Except ConfigError Screen := do
  validateEntryReferences interview.screens condActions interview.submissionActions
  selectInitialScreen interview

/-! ### Sample data used by concrete witnesses -/

/-- A record-backed sample entry. -/
def sampleAirtableEntry : Entry :=
  { id := "entry-1"
    responseKey := "rk-1"
    responseType := ResponseType.airtable
    responseTypeOptions :=
      { selectedBase := "base-1", selectedTable := "table-1", selectedFields := ["Name"] } }

/-- A text sample entry. -/
def sampleTextEntry : Entry :=
  { id := "entry-2"
    responseKey := "rk-2"
    responseType := ResponseType.text
    responseTypeOptions :=
      { selectedBase := "", selectedTable := "", selectedFields := [] } }

/-- Sample response data in which only the text entry was answered. -/
def sampleResponseData : ResponseData :=
  [("rk-2", { entry := sampleTextEntry, response := ResponseValue.str "Ada" })]

/-- A sample environment with a fixed clock reading. -/
def sampleEnv : Env := { nowISO := "2023-05-01T12:00:00.000Z" }

/-- A starting-state sample screen with order 1, holding both sample
entries. -/
def sampleScreenA : Screen :=
  { id := "screen-a"
    isInStartingState := true
    startingStateOrder := some 1
    entries := [sampleAirtableEntry, sampleTextEntry] }

/-- A starting-state sample screen with order 2. -/
def sampleScreenB : Screen :=
  { id := "screen-b"
    isInStartingState := true
    startingStateOrder := some 2
    entries := [] }

end DataGather

namespace DataGather

/-! ### Helper lemmas -/

theorem findEntryInList_of_no_match {entryId : String} {l : List Entry}
    (h : ∀ x ∈ l, x.id ≠ entryId) : findEntryInList entryId l = none := by
  induction l with
  | nil => rfl
  | cons e rest ih =>
      simp only [findEntryInList]
      rw [if_neg (h e (List.mem_cons_self e rest))]
      exact ih fun x hx => h x (List.mem_cons_of_mem e hx)

theorem findEntryInList_first_match {entryId : String} {l : List Entry} {e : Entry}
    (h : findEntryInList entryId l = some e) :
    e.id = entryId ∧ ∃ l1 l2, l = l1 ++ e :: l2 ∧ ∀ x ∈ l1, x.id ≠ entryId := by
  induction l with
  | nil => simp [findEntryInList] at h
  | cons a rest ih =>
      simp only [findEntryInList] at h
      by_cases ha : a.id = entryId
      · rw [if_pos ha] at h
        obtain rfl : a = e := Option.some.inj h
        exact ⟨ha, [], rest, rfl, by simp⟩
      · rw [if_neg ha] at h
        obtain ⟨heid, l1, l2, hl, hfirst⟩ := ih h
        refine ⟨heid, a :: l1, l2, by simp [hl], ?_⟩
        intro x hx
        rcases List.mem_cons.mp hx with rfl | hx'
        · exact ha
        · exact hfirst x hx'

theorem findEntryInList_of_first_match {entryId : String} {l1 l2 : List Entry}
    {e : Entry} (hfirst : ∀ x ∈ l1, x.id ≠ entryId) (heid : e.id = entryId) :
    findEntryInList entryId (l1 ++ e :: l2) = some e := by
  induction l1 with
  | nil => simp [findEntryInList, heid]
  | cons a rest ih =>
      simp only [List.cons_append, findEntryInList]
      rw [if_neg (hfirst a (List.mem_cons_self a rest))]
      exact ih fun x hx => hfirst x (List.mem_cons_of_mem a hx)

/-- C10: `getEntryById` is total by construction (it is a plain Lean
function, mirroring source code with no throwing operation); it returns
`null` when the entry list is `null` or contains no entry with the requested
id; a returned entry is the first entry in list order whose id matches; and
conversely, whenever the list does contain a matching entry, the function
does return `some`, namely the first such entry. -/
theorem getEntryById_spec (entryId : String) (entries : Option (List Entry)) :
    (entries = none → getEntryById entryId entries = none) ∧
    (∀ l, entries = some l → (∀ x ∈ l, x.id ≠ entryId) →
      getEntryById entryId entries = none) ∧
    (∀ l e, entries = some l → getEntryById entryId entries = some e →
      e.id = entryId ∧ ∃ l1 l2, l = l1 ++ e :: l2 ∧ ∀ x ∈ l1, x.id ≠ entryId) ∧
    (∀ (l1 : List Entry) (e : Entry) (l2 : List Entry),
      entries = some (l1 ++ e :: l2) → e.id = entryId →
      (∀ x ∈ l1, x.id ≠ entryId) → getEntryById entryId entries = some e) := by
  refine ⟨fun h => by rw [h]; rfl, ?_, ?_, ?_⟩
  · intro l hl hno
    rw [hl]
    exact findEntryInList_of_no_match hno
  · intro l e hl he
    rw [hl] at he
    exact findEntryInList_first_match he
  · intro l1 e l2 hl heid hfirst
    rw [hl]
    exact findEntryInList_of_first_match hfirst heid

/-- Witness for C10 at concrete inputs: the `null` list gives `null`, a list
without the id gives `null`, a returned entry is the first match, and a list
containing the id does return that first matching entry. -/
theorem getEntryById_spec_witness :
    getEntryById "entry-1" none = none ∧
    getEntryById "entry-1" (some [sampleTextEntry]) = none ∧
    (sampleAirtableEntry.id = "entry-1" ∧
      ∃ l1 l2, [sampleTextEntry, sampleAirtableEntry] = l1 ++ sampleAirtableEntry :: l2 ∧
        ∀ x ∈ l1, x.id ≠ "entry-1") ∧
    getEntryById "entry-1" (some [sampleTextEntry, sampleAirtableEntry]) =
      some sampleAirtableEntry := by
  refine ⟨(getEntryById_spec "entry-1" none).1 rfl,
    (getEntryById_spec "entry-1" (some [sampleTextEntry])).2.1 [sampleTextEntry] rfl
      (by decide), ?_, ?_⟩
  · exact (getEntryById_spec "entry-1"
        (some [sampleTextEntry, sampleAirtableEntry])).2.2.1
      [sampleTextEntry, sampleAirtableEntry] sampleAirtableEntry rfl (by decide)
  · exact (getEntryById_spec "entry-1"
        (some [sampleTextEntry, sampleAirtableEntry])).2.2.2
      [sampleTextEntry] sampleAirtableEntry [] (by decide) (by decide) (by decide)

/-- C8: the only special value type is `NOW_DATE` (the enum is exhausted by
that one member), and it resolves to the current instant's ISO-8601 rendering
(`new Date().toISOString()`, modelled as `env.nowISO`); in particular a field
mapping that sets `specialValueType` and no `entryId` resolves to exactly
that string. -/
theorem specialValue_now_date (env : Env) (svt : SpecialValueType) :
    getSpecialValueForSubmission env svt = env.nowISO ∧
    svt = SpecialValueType.NOW_DATE ∧
    ∀ (allEntries : List (String × Entry)) (rd : ResponseData)
      (fk : Option String),
      resolveFieldValue env allEntries rd
        { entryId := none, responseFieldKey := fk, specialValueType := some svt } =
        env.nowISO := by
  cases svt
  exact ⟨rfl, rfl, fun _ _ _ => rfl⟩



/-- C5: a condition whose referenced entry has no recorded answer in the
response data never matches, for every comparison operator and every
response type of the referenced entry; the evaluator is a total function by
construction, so the non-match is returned rather than an error being
raised. -/
theorem condition_unanswered_never_matches (screens : List Screen)
    (rd : ResponseData) (cond : Condition) (entry : Entry)
    (hentry : findEntryInScreens screens cond.entryId = some entry)
    (hunanswered : alookup rd entry.responseKey = none) :
    conditionMatches screens rd cond = false := by
  simp [conditionMatches, hentry, hunanswered]

/-- Witness for C5: a condition on the record-backed entry, which is
unanswered in the sample response data, does not match. -/
theorem condition_unanswered_never_matches_witness :
    conditionMatches [sampleScreenA] sampleResponseData
      { entryId := "entry-1", operator := ConditionalOperator.equals,
        value := "rec123" } = false :=
  condition_unanswered_never_matches [sampleScreenA] sampleResponseData
    { entryId := "entry-1", operator := ConditionalOperator.equals,
      value := "rec123" }
    sampleAirtableEntry (by decide) (by decide)

theorem nextInSequence_of_first_occurrence {pre rest : List Screen}
    {cur : Screen} (hfirst : ∀ s ∈ pre, s.id ≠ cur.id) :
    nextInSequence (pre ++ cur :: rest) cur.id = rest.head? := by
  induction pre with
  | nil => simp [nextInSequence]
  | cons s pre ih =>
      simp only [List.cons_append, nextInSequence]
      rw [if_neg (hfirst s (List.mem_cons_self s pre))]
      exact ih fun x hx => hfirst x (List.mem_cons_of_mem s hx)

/-- C6: when none of the current screen's conditional actions match, the
next state is the screen immediately after it in the order the screens were
supplied, and TERMINAL when it is the last screen of that order. -/
theorem next_default_fallback (condActions : List ConditionalAction)
    (rd : ResponseData) (pre rest : List Screen) (cur : Screen)
    (hfirst : ∀ s ∈ pre, s.id ≠ cur.id)
    (hnomatch : ∀ a ∈ screenActions condActions cur.id,
      conditionMatches (pre ++ cur :: rest) rd a.condition = false) :
    nextState (pre ++ cur :: rest) condActions cur rd =
      match rest.head? with
      | some t => FlowTarget.screen t.id
      | none => FlowTarget.terminal := by
  unfold nextState
  rw [List.find?_eq_none.mpr fun a ha => by simp [hnomatch a ha]]
  rw [nextInSequence_of_first_occurrence hfirst]

/-- Witness for C6 at a concrete two-screen sequence `[A, B]` with no
conditional actions: from `A` the flow falls through to `B`, and from `B`
(last in sequence) it terminates. -/
theorem next_default_fallback_witness :
    nextState [sampleScreenA, sampleScreenB] [] sampleScreenA
        sampleResponseData = FlowTarget.screen "screen-b" ∧
    nextState [sampleScreenA, sampleScreenB] [] sampleScreenB
        sampleResponseData = FlowTarget.terminal := by
  constructor
  · exact next_default_fallback [] sampleResponseData [] [sampleScreenB]
      sampleScreenA (by simp) (by simp [screenActions])
  · exact next_default_fallback [] sampleResponseData [sampleScreenA] []
      sampleScreenB (by decide) (by simp [screenActions])


theorem alookup_aset_of_ne {α : Type} {m : List (String × α)} {k key : String}
    {v : α} (h : k ≠ key) : alookup (aset m k v) key = alookup m key := by
  induction m with
  | nil => simp [aset, alookup, h]
  | cons p rest ih =>
      by_cases hk : p.1 = k
      · simp [aset, alookup, hk, h]
      · simp only [aset, alookup]
        rw [if_neg (by simpa using hk)]
        by_cases hkey : p.1 = key <;> simp [alookup, hkey, ih]

theorem alookup_buildAllEntries_eq_none {rd : ResponseData} {eid : String}
    (h : ∀ p ∈ rd, p.2.entry.id ≠ eid) :
    alookup (buildAllEntries rd) eid = none := by
  suffices hgen : ∀ (acc : List (String × Entry)), alookup acc eid = none →
      alookup (rd.foldl (fun m kv => aset m kv.2.entry.id kv.2.entry) acc) eid = none by
    exact hgen [] rfl
  induction rd with
  | nil => intro acc hacc; simpa using hacc
  | cons p rest ih =>
      intro acc hacc
      simp only [List.foldl_cons]
      refine ih (fun q hq => h q (List.mem_cons_of_mem p hq)) _ ?_
      rw [alookup_aset_of_ne (h p (List.mem_cons_self p rest))]
      exact hacc

/-- C1: an `EDIT_ROW` submission action whose target entry is unanswered in
the response data is skipped without error: the action resolves to no sink
call at all (in particular neither `updateRecord` nor `createRecord`), and
the whole completion handler dispatches nothing for an interview consisting
of that action. -/
theorem editRow_skipped_when_unanswered (env : Env) (rd : ResponseData)
    (action : SubmissionActionT) (eid pkf : String)
    (hconfig : action.config = ActionConfig.editRow eid pkf)
    (hunanswered : ∀ p ∈ rd, p.2.entry.id ≠ eid) :
    resolveSubmissionAction env (buildAllEntries rd) rd action = [] ∧
    ∀ (failures : SinkCall → Bool) (interview : Interview),
      interview.submissionActions = [action] →
      onInterviewComplete env failures interview rd = ([], []) := by
  have hskip : resolveSubmissionAction env (buildAllEntries rd) rd action = [] := by
    simp [resolveSubmissionAction, hconfig,
      alookup_buildAllEntries_eq_none hunanswered]
  refine ⟨hskip, fun failures interview hsubs => ?_⟩
  simp [onInterviewComplete, hsubs, hskip]

/-- A sample `EDIT_ROW` action targeting the record-backed entry. -/
def sampleEditRowAction : SubmissionActionT :=
  { config := ActionConfig.editRow "entry-1" "Primary Key"
    fieldMappings :=
      [("fld-name",
        { entryId := some "entry-2", responseFieldKey := none,
          specialValueType := none })] }

/-- Witness for C1: in the sample response data only the text entry is
answered, so the `EDIT_ROW` action targeting the record-backed entry
dispatches nothing. -/
theorem editRow_skipped_when_unanswered_witness :
    resolveSubmissionAction sampleEnv (buildAllEntries sampleResponseData)
      sampleResponseData sampleEditRowAction = [] ∧
    onInterviewComplete sampleEnv (fun _ => true)
      { screens := [sampleScreenA], submissionActions := [sampleEditRowAction] }
      sampleResponseData = ([], []) := by
  have h := editRow_skipped_when_unanswered sampleEnv sampleResponseData
    sampleEditRowAction "entry-1" "Primary Key" rfl (by decide)
  exact ⟨h.1, h.2 (fun _ => true)
    { screens := [sampleScreenA], submissionActions := [sampleEditRowAction] } rfl⟩

theorem mem_resolveFields_iff (env : Env) (allEntries : List (String × Entry))
    (rd : ResponseData) (mappings : List (String × EntryResponseLookupConfig))
    (fieldId : String) :
    (∃ v, (fieldId, v) ∈ resolveFields env allEntries rd mappings) ↔
    (∃ cfg, (fieldId, cfg) ∈ mappings ∧
      resolveFieldValue env allEntries rd cfg ≠ "") := by
  constructor
  · rintro ⟨v, hv⟩
    obtain ⟨p, hp, hfp⟩ := List.mem_filterMap.mp hv
    by_cases hval : resolveFieldValue env allEntries rd p.2 = ""
    · simp [resolveFields, hval] at hfp
    · simp only [resolveFields, if_neg hval] at hfp
      obtain ⟨hfst, hsnd⟩ := Prod.mk.injEq .. ▸ Option.some.inj hfp
      exact ⟨p.2, by rw [← hfst]; exact hp, hval⟩
  · rintro ⟨cfg, hmem, hval⟩
    refine ⟨resolveFieldValue env allEntries rd cfg, List.mem_filterMap.mpr
      ⟨(fieldId, cfg), hmem, ?_⟩⟩
    simp [if_neg hval]

theorem fields_of_mem_resolveSubmissionAction {env : Env}
    {allEntries : List (String × Entry)} {rd : ResponseData}
    {action : SubmissionActionT} {call : SinkCall}
    (hcall : call ∈ resolveSubmissionAction env allEntries rd action) :
    call.fields = resolveFields env allEntries rd action.fieldMappings := by
  unfold resolveSubmissionAction at hcall
  split at hcall
  · split at hcall
    · split at hcall
      · split at hcall
        · split at hcall
          · simp at hcall
          · rw [List.mem_singleton.mp hcall]; rfl
        · simp at hcall
      · simp at hcall
    · simp at hcall
  · rw [List.mem_singleton.mp hcall]; rfl

/-- C2: for every submission action of either type and every sink call it
dispatches, a field id appears in the dispatched payload exactly when some
field mapping for that id resolves to a non-empty string — mappings that
resolve to the empty string (unanswered entry, missing entry, or empty
selected sub-field) are dropped from the payload. -/
theorem payload_field_iff_nonempty (env : Env) (rd : ResponseData)
    (action : SubmissionActionT) (call : SinkCall)
    (hcall : call ∈ resolveSubmissionAction env (buildAllEntries rd) rd action)
    (fieldId : String) :
    (∃ v, (fieldId, v) ∈ call.fields) ↔
    (∃ cfg, (fieldId, cfg) ∈ action.fieldMappings ∧
      resolveFieldValue env (buildAllEntries rd) rd cfg ≠ "") := by
  rw [fields_of_mem_resolveSubmissionAction hcall]
  exact mem_resolveFields_iff env (buildAllEntries rd) rd action.fieldMappings fieldId

/-- A sample `INSERT_ROW` action with one mapping that resolves to the
current date and one that resolves to the empty string (its entry is
unanswered). -/
def sampleInsertRowAction : SubmissionActionT :=
  { config := ActionConfig.insertRow "base-9" "table-9"
    fieldMappings :=
      [("fld-date",
        { entryId := none, responseFieldKey := none,
          specialValueType := some SpecialValueType.NOW_DATE }),
       ("fld-record",
        { entryId := some "entry-1", responseFieldKey := some "Name",
          specialValueType := none })] }

/-- The sink call the sample `INSERT_ROW` action dispatches: only the
non-empty resolution appears in its payload. -/
def sampleInsertCall : SinkCall :=
  SinkCall.createRecord "base-9" "table-9" [("fld-date", sampleEnv.nowISO)]

/-- Witness for C2: in the dispatched payload of the sample `INSERT_ROW`
action the non-empty resolution `fld-date` is present and the empty
resolution `fld-record` is absent. -/
theorem payload_field_iff_nonempty_witness :
    (∃ v, ("fld-date", v) ∈ sampleInsertCall.fields) ∧
    ¬(∃ v, ("fld-record", v) ∈ sampleInsertCall.fields) := by
  have hcall : sampleInsertCall ∈ resolveSubmissionAction sampleEnv
      (buildAllEntries sampleResponseData) sampleResponseData
      sampleInsertRowAction := by decide
  constructor
  · exact (payload_field_iff_nonempty sampleEnv sampleResponseData
        sampleInsertRowAction sampleInsertCall hcall "fld-date").mpr
      ⟨{ entryId := none, responseFieldKey := none,
         specialValueType := some SpecialValueType.NOW_DATE },
        by decide, by decide⟩
  · intro hx
    obtain ⟨cfg, hmem, hval⟩ := (payload_field_iff_nonempty sampleEnv
      sampleResponseData sampleInsertRowAction sampleInsertCall hcall
      "fld-record").mp hx
    apply hval
    simp only [sampleInsertRowAction, List.mem_cons, List.not_mem_nil, or_false,
      Prod.mk.injEq] at hmem
    rcases hmem with ⟨h1, _⟩ | ⟨_, h2⟩
    · exact absurd h1 (by decide)
    · rw [h2]; decide

theorem foldl_dispatch (f : SubmissionActionT → List SinkCall)
    (failures : SinkCall → Bool) (acts : List SubmissionActionT)
    (acc : List SinkCall × List SinkCall) :
    acts.foldl (fun acc action =>
        (acc.1 ++ f action, acc.2 ++ (f action).filter failures)) acc =
      (acc.1 ++ acts.flatMap f, acc.2 ++ (acts.flatMap f).filter failures) := by
  induction acts generalizing acc with
  | nil => simp
  | cons a rest ih =>
      rw [List.foldl_cons, ih]
      simp [List.filter_append, List.append_assoc]

theorem resolveSubmissionAction_length_le_one (env : Env)
    (allEntries : List (String × Entry)) (rd : ResponseData)
    (action : SubmissionActionT) :
    (resolveSubmissionAction env allEntries rd action).length ≤ 1 := by
  unfold resolveSubmissionAction
  split
  · split
    · split
      · split
        · split <;> simp
        · simp
      · simp
    · simp
  · simp

/-- C7: submission actions are resolved and dispatched independently of the
external service's failures.  The list of dispatched sink calls is the
per-action concatenation, is the same under any failure oracle as under none
(a failing call neither blocks a sibling action's dispatch nor rolls any
dispatched call back), each action dispatches at most one call (no automatic
retry), and the reported errors are exactly the dispatched calls the service
failed, one report per failed call. -/
theorem submission_failures_independent (env : Env) (failures : SinkCall → Bool)
    (interview : Interview) (rd : ResponseData) :
    (onInterviewComplete env failures interview rd).1 =
      interview.submissionActions.flatMap
        (resolveSubmissionAction env (buildAllEntries rd) rd) ∧
    (onInterviewComplete env failures interview rd).1 =
      (onInterviewComplete env (fun _ => false) interview rd).1 ∧
    (onInterviewComplete env failures interview rd).2 =
      ((onInterviewComplete env failures interview rd).1).filter failures ∧
    ∀ action,
      (resolveSubmissionAction env (buildAllEntries rd) rd action).length ≤ 1 := by
  have hrun : ∀ g : SinkCall → Bool, onInterviewComplete env g interview rd =
      (interview.submissionActions.flatMap
        (resolveSubmissionAction env (buildAllEntries rd) rd),
       (interview.submissionActions.flatMap
         (resolveSubmissionAction env (buildAllEntries rd) rd)).filter g) := by
    intro g
    unfold onInterviewComplete
    rw [foldl_dispatch]
    simp
  refine ⟨by rw [hrun], by rw [hrun, hrun], by rw [hrun], fun action =>
    resolveSubmissionAction_length_le_one env (buildAllEntries rd) rd action⟩

theorem find?_eq_some_of_exists {α : Type} {p : α → Bool} {l : List α}
    (h : ∃ x ∈ l, p x = true) : ∃ y, l.find? p = some y := by
  induction l with
  | nil => simp at h
  | cons a rest ih =>
      by_cases ha : p a = true
      · exact ⟨a, by simp [List.find?_cons, ha]⟩
      · obtain ⟨x, hx, hpx⟩ := h
        rcases List.mem_cons.mp hx with rfl | hx'
        · exact absurd hpx ha
        · obtain ⟨y, hy⟩ := ih ⟨x, hx', hpx⟩
          exact ⟨y, by simp [List.find?_cons, ha, hy]⟩

/-- C3: a configuration in which some conditional action or submission
action references an entry id that exists in none of the supplied screens'
entries makes engine construction fail with a configuration error naming a
dangling entry reference; since construction returns no initial screen, the
flow never starts. -/
theorem dangling_reference_fails_construction (interview : Interview)
    (condActions : List ConditionalAction) (eid : String)
    (href : eid ∈ referencedEntryIds condActions interview.submissionActions)
    (hdangling : entryExists interview.screens eid = false) :
    ∃ badId, constructEngine interview condActions =
        Except.error (ConfigError.danglingEntryReference badId) ∧
      entryExists interview.screens badId = false := by
  obtain ⟨y, hy⟩ := find?_eq_some_of_exists (p := fun e => !entryExists interview.screens e)
    ⟨eid, href, by simp [hdangling]⟩
  have hyprop : entryExists interview.screens y = false := by
    simpa using List.find?_some hy
  have hval : validateEntryReferences interview.screens condActions
      interview.submissionActions =
      Except.error (ConfigError.danglingEntryReference y) := by
    unfold validateEntryReferences
    rw [hy]
  refine ⟨y, ?_, hyprop⟩
  unfold constructEngine
  rw [hval]
  rfl

/-- A submission action referencing an entry id that exists on no screen. -/
def danglingAction : SubmissionActionT :=
  { config := ActionConfig.editRow "entry-404" "Primary Key"
    fieldMappings := [] }

/-- Witness for C3: an interview whose only submission action targets the
non-existent entry id fails construction with a dangling-reference error. -/
theorem dangling_reference_fails_construction_witness :
    ∃ badId, constructEngine
        { screens := [sampleScreenA], submissionActions := [danglingAction] } [] =
        Except.error (ConfigError.danglingEntryReference badId) ∧
      entryExists [sampleScreenA] badId = false :=
  dangling_reference_fails_construction
    { screens := [sampleScreenA], submissionActions := [danglingAction] } []
    "entry-404" (by decide) (by decide)

/-- A screen flagged as starting but with an undefined `startingStateOrder`. -/
def noOrderScreen : Screen :=
  { id := "screen-c"
    isInStartingState := true
    startingStateOrder := none
    entries := [] }

/-- An interview whose only screen is `noOrderScreen`. -/
def noOrderInterview : Interview :=
  { screens := [noOrderScreen], submissionActions := [] }

/-- An interview with starting screens A (order 1) and B (order 2). -/
def abInterview : Interview :=
  { screens := [sampleScreenA, sampleScreenB], submissionActions := [] }

/-- Counterexample to C4 as stated: `noOrderInterview` contains a screen with
`isInStartingState = true`, yet the engine does not start at any screen — the
source filter in `getStartingScreens` also demands a defined
`startingStateOrder`, so the screen does not qualify and initial-screen
selection fails with the configuration error. -/
theorem initial_screen_claim_counterexample :
    noOrderScreen ∈ noOrderInterview.screens ∧
    noOrderScreen.isInStartingState = true ∧
    selectInitialScreen noOrderInterview =
      Except.error ConfigError.noStartingScreen := by
  refine ⟨List.mem_singleton.mpr rfl, rfl, ?_⟩
  have h : getStartingScreens noOrderInterview = [] := by
    simp [getStartingScreens, noOrderInterview, noOrderScreen]
  simp [selectInitialScreen, h]

/-- C4 as amended: among the screens that qualify as starting screens
(`isInStartingState = true` AND a defined `startingStateOrder`), the initial
screen is one with the highest order; if no screen qualifies, engine
construction fails with a configuration error and nothing is presented. -/
theorem initial_screen_amended (interview : Interview) :
    ((∃ s ∈ interview.screens,
        s.isInStartingState = true ∧ s.startingStateOrder.isSome = true) →
      ∃ s, selectInitialScreen interview = Except.ok s ∧
        s ∈ interview.screens ∧ s.isInStartingState = true ∧
        s.startingStateOrder.isSome = true ∧
        ∀ t ∈ interview.screens, t.isInStartingState = true →
          t.startingStateOrder.isSome = true →
          t.startingStateOrder.getD 0 ≤ s.startingStateOrder.getD 0) ∧
    ((∀ s ∈ interview.screens,
        ¬(s.isInStartingState = true ∧ s.startingStateOrder.isSome = true)) →
      selectInitialScreen interview =
        Except.error ConfigError.noStartingScreen) := by
  have htrans : ∀ a b c : Screen,
      (decide (b.startingStateOrder.getD 0 ≤ a.startingStateOrder.getD 0)) = true →
      (decide (c.startingStateOrder.getD 0 ≤ b.startingStateOrder.getD 0)) = true →
      (decide (c.startingStateOrder.getD 0 ≤ a.startingStateOrder.getD 0)) = true := by
    intro a b c hab hbc
    simp only [decide_eq_true_eq] at *
    exact le_trans hbc hab
  have htotal : ∀ a b : Screen,
      ((decide (b.startingStateOrder.getD 0 ≤ a.startingStateOrder.getD 0)) ||
        (decide (a.startingStateOrder.getD 0 ≤ b.startingStateOrder.getD 0))) = true := by
    intro a b
    simp only [Bool.or_eq_true, decide_eq_true_eq]
    exact le_total _ _
  constructor
  · rintro ⟨s0, hs0mem, hs0start, hs0some⟩
    have hs0f : s0 ∈ interview.screens.filter
        (fun s => s.isInStartingState && s.startingStateOrder.isSome) :=
      List.mem_filter.mpr ⟨hs0mem, by simp [hs0start, hs0some]⟩
    have hne : getStartingScreens interview ≠ [] := by
      intro hnil
      have hperm := List.mergeSort_perm (interview.screens.filter
        (fun s => s.isInStartingState && s.startingStateOrder.isSome))
        (fun s1 s2 => s2.startingStateOrder.getD 0 ≤ s1.startingStateOrder.getD 0)
      rw [show (interview.screens.filter
          (fun s => s.isInStartingState && s.startingStateOrder.isSome)).mergeSort
          (fun s1 s2 => s2.startingStateOrder.getD 0 ≤ s1.startingStateOrder.getD 0) =
          getStartingScreens interview from rfl, hnil] at hperm
      rw [hperm.symm.eq_nil] at hs0f
      exact List.not_mem_nil s0 hs0f
    obtain ⟨s, rest, hcons⟩ := List.exists_cons_of_ne_nil hne
    have hmemSort : ∀ t, t ∈ getStartingScreens interview ↔
        t ∈ interview.screens.filter
          (fun s => s.isInStartingState && s.startingStateOrder.isSome) := by
      intro t
      exact (List.mergeSort_perm _ _).mem_iff
    have hsf : s ∈ interview.screens.filter
        (fun s => s.isInStartingState && s.startingStateOrder.isSome) :=
      (hmemSort s).mp (hcons ▸ List.mem_cons_self s rest)
    have hsmem := (List.mem_filter.mp hsf).1
    have hsprop := (List.mem_filter.mp hsf).2
    have hsorted := List.sorted_mergeSort htrans htotal
      (interview.screens.filter
        (fun s => s.isInStartingState && s.startingStateOrder.isSome))
    rw [show (interview.screens.filter
        (fun s => s.isInStartingState && s.startingStateOrder.isSome)).mergeSort
        (fun s1 s2 => s2.startingStateOrder.getD 0 ≤ s1.startingStateOrder.getD 0) =
        getStartingScreens interview from rfl, hcons] at hsorted
    refine ⟨s, by simp [selectInitialScreen, hcons], hsmem, ?_, ?_, ?_⟩
    · have := Bool.and_elim_left (by simpa using hsprop)
      simpa using this
    · have := Bool.and_elim_right (by simpa using hsprop)
      simpa using this
    · intro t htmem htstart htsome
      have htf : t ∈ interview.screens.filter
          (fun s => s.isInStartingState && s.startingStateOrder.isSome) :=
        List.mem_filter.mpr ⟨htmem, by simp [htstart, htsome]⟩
      have htsort := (hmemSort t).mpr htf
      rw [hcons] at htsort
      rcases List.mem_cons.mp htsort with rfl | htrest
      · exact le_refl _
      · have := (List.pairwise_cons.mp hsorted).1 t htrest
        simpa using this
  · intro hnone
    have hfil : interview.screens.filter
        (fun s => s.isInStartingState && s.startingStateOrder.isSome) = [] := by
      refine List.filter_eq_nil_iff.mpr ?_
      intro a ha
      have := hnone a ha
      simp only [Bool.and_eq_true]
      intro hc
      exact this ⟨hc.1, hc.2⟩
    have h : getStartingScreens interview = [] := by
      rw [show getStartingScreens interview = (interview.screens.filter
        (fun s => s.isInStartingState && s.startingStateOrder.isSome)).mergeSort
        (fun s1 s2 => s2.startingStateOrder.getD 0 ≤ s1.startingStateOrder.getD 0) from rfl,
        hfil]
      simp
    simp [selectInitialScreen, h]

/-- Witness for C4's amended statement at the spec's own example: screens A
(order 1) and B (order 2) both start; the engine starts at B, the qualifying
screen with the highest `startingStateOrder`. -/
theorem initial_screen_amended_witness :
    selectInitialScreen abInterview = Except.ok sampleScreenB := by
  obtain ⟨s, hok, hmem, hstart, hsome, hmax⟩ :=
    (initial_screen_amended abInterview).1 ⟨sampleScreenB, by decide, by decide⟩
  have hB := hmax sampleScreenB (by decide) (by decide) (by decide)
  rcases List.mem_cons.mp hmem with rfl | hmem2
  · exact absurd hB (by decide)
  · rcases List.mem_singleton.mp hmem2 with rfl
    exact hok

theorem jsSplit_ne_nil (sep : Char) (l : List Char) : jsSplit sep l ≠ [] := by
  cases l with
  | nil => simp [jsSplit]
  | cons c cs =>
      simp only [jsSplit]
      split <;> simp

theorem jsSplit_of_not_mem {sep : Char} {x : List Char} (h : sep ∉ x) :
    jsSplit sep x = [x] := by
  induction x with
  | nil => rfl
  | cons c cs ih =>
      have hc : c ≠ sep := fun hc => h (hc ▸ List.mem_cons_self c cs)
      have hcs : sep ∉ cs := fun hm => h (List.mem_cons_of_mem c hm)
      simp [jsSplit, if_neg hc, ih hcs]

theorem jsSplit_append_sep {sep : Char} {x t : List Char} (h : sep ∉ x) :
    jsSplit sep (x ++ sep :: t) = x :: jsSplit sep t := by
  induction x with
  | nil => simp [jsSplit]
  | cons c cs ih =>
      have hc : c ≠ sep := fun hc => h (hc ▸ List.mem_cons_self c cs)
      have hcs : sep ∉ cs := fun hm => h (List.mem_cons_of_mem c hm)
      rw [List.cons_append]
      simp [jsSplit, if_neg hc, ih hcs]

theorem jsSplit_jsJoin {sep : Char} (l : List (List Char)) (hne : l ≠ [])
    (hnosep : ∀ x ∈ l, sep ∉ x) : jsSplit sep (jsJoin sep l) = l := by
  induction l with
  | nil => exact absurd rfl hne
  | cons x xs ih =>
      cases xs with
      | nil =>
          simp only [jsJoin, List.flatMap_nil, List.append_nil]
          exact jsSplit_of_not_mem (hnosep x (List.mem_cons_self x []))
      | cons y ys =>
          have hjoin : jsJoin sep (x :: y :: ys) =
              x ++ sep :: jsJoin sep (y :: ys) := by
            simp [jsJoin, List.flatMap_cons, List.cons_append]
          rw [hjoin, jsSplit_append_sep (hnosep x (List.mem_cons_self x (y :: ys)))]
          rw [ih (by simp) (fun z hz => hnosep z (List.mem_cons_of_mem x hz))]

/-- Counterexample to C9 as stated: the empty `allowedLanguages` list
vacuously contains no string with the delimiter, yet the round trip yields
`[""]` (JavaScript `[].join(";")` is `""` and `"".split(";")` is `[""]`),
not the original empty list. -/
theorem allowedLanguages_roundtrip_counterexample :
    (∀ lang ∈ InterviewMeta.allowedLanguages
        { allowedLanguages := [], name := [] }, LANGUAGE_DELIMITER ∉ lang) ∧
    deserializeInterviewMeta (serializeInterviewMeta
        { allowedLanguages := [], name := [] }) ≠
      ({ allowedLanguages := [], name := [] } : InterviewMeta) := by
  constructor
  · intro lang hl
    simp [InterviewMeta.allowedLanguages] at hl
  · decide

/-- C9 as amended: for every interview whose `allowedLanguages` list is
nonempty and contains no string with the delimiter character `;`,
deserializing the result of serializing the interview yields the original
`allowedLanguages` list unchanged. -/
theorem allowedLanguages_roundtrip_amended (i : InterviewMeta)
    (hne : i.allowedLanguages ≠ [])
    (hnosep : ∀ lang ∈ i.allowedLanguages, LANGUAGE_DELIMITER ∉ lang) :
    deserializeInterviewMeta (serializeInterviewMeta i) = i := by
  obtain ⟨langs, nm⟩ := i
  simp only [serializeInterviewMeta, deserializeInterviewMeta,
    InterviewMeta.mk.injEq]
  exact ⟨jsSplit_jsJoin langs hne hnosep, trivial⟩

/-- Witness for C9's amended statement at the concrete language list
`["en", "es"]`. -/
theorem allowedLanguages_roundtrip_amended_witness :
    deserializeInterviewMeta (serializeInterviewMeta
        { allowedLanguages := [['e', 'n'], ['e', 's']], name := ['n'] }) =
      { allowedLanguages := [['e', 'n'], ['e', 's']], name := ['n'] } :=
  allowedLanguages_roundtrip_amended
    { allowedLanguages := [['e', 'n'], ['e', 's']], name := ['n'] }
    (by decide) (by decide)

end DataGather
